import Mathlib

/-!
Shallow embedding of the automated book publication repository.

The persistence substrate (ChromaDB) is modelled as lists of records in
insertion order.  A ChromaDB `query` call is a nearest-neighbour search over
an embedding of the documents; the embedding model is represented by an
explicit distance function `dist : String → String → ℚ` giving the distance
between a query text and a document.  `upsert` replaces a record with the
same id in place, otherwise appends.  Wall-clock readings (`time.time()`,
`datetime.now()`) are passed explicitly as a natural-number clock parameter.
External collaborators (Gemini transformer, HuggingFace evaluator, OpenAI
editor, the Playwright harvester) are passed as oracle functions, matching
their role as external services in the source.
-/

/-- Metadata values stored alongside ChromaDB documents. -/
inductive MVal where
  | str (s : String)
  | int (n : Int)
  | null
deriving DecidableEq, Repr

/-- One record of a ChromaDB collection: id, document text, metadata. -/
structure CEntry where
  eid : String
  doc : String
  meta : List (String × MVal)
deriving DecidableEq, Repr

/-- A ChromaDB collection, in insertion order. -/
abbrev Collection := List CEntry

/-- ChromaDB upsert of a single record: replaces the record with the same id
in place, otherwise appends. -/
def upsert1 (c : Collection) (e : CEntry) : Collection :=
  if c.any (fun x => x.eid == e.eid) then
    c.map (fun x => if x.eid == e.eid then e else x)
  else c ++ [e]

/-- ChromaDB get by a single id. -/
def getById (c : Collection) (i : String) : Option CEntry :=
  c.find? (fun x => x.eid == i)

/-- Exact-match metadata filter of a ChromaDB where clause: every listed key
must be present with an equal value. -/
def whereMatch (w : List (String × MVal)) (e : CEntry) : Bool :=
  w.all (fun kv => ((e.meta.find? (fun p => p.1 == kv.1)).map Prod.snd) == some kv.2)

/-- Insert an element into a list sorted by the boolean comparison le,
keeping it in front of later equal elements. -/
def insortLe {α : Type} (le : α → α → Bool) (a : α) : List α → List α
  | [] => [a]
  | b :: bs => if le a b then a :: b :: bs else b :: insortLe le a bs

/-- Insertion sort by the boolean comparison le; the deterministic model of
the ranking a ChromaDB query applies to its hits. -/
def sortLe {α : Type} (le : α → α → Bool) : List α → List α
  | [] => []
  | a :: as => insortLe le a (sortLe le as)

/-- Hits of a ChromaDB query with a single query text: metadata-filtered
records ranked by embedding distance to the query text, truncated to
nResults.  The distance function dist stands for the embedding model. -/
def queryHits (dist : String → String → ℚ) (qt : String) (w : List (String × MVal))
    (nResults : Nat) (c : Collection) : List CEntry :=
  (sortLe (fun a b => decide (dist qt a.doc ≤ dist qt b.doc)) (c.filter (whereMatch w))).take nResults

/-- Result shape of a ChromaDB query: one inner list per query text. -/
structure QRes where
  ids : List (List String)
  docs : List (List String)
  metas : List (List (List (String × MVal)))
deriving DecidableEq, Repr

/-- A ChromaDB query with one query text, returning the nested result lists
exactly as the Python client does. -/
def query1 (dist : String → String → ℚ) (qt : String) (w : List (String × MVal))
    (nResults : Nat) (c : Collection) : QRes :=
  let h := queryHits dist qt w nResults c
  ⟨[h.map CEntry.eid], [h.map CEntry.doc], [h.map CEntry.meta]⟩

/-- Lookup of a metadata key, null when absent (Python dict .get default). -/
def metaGet (m : List (String × MVal)) (k : String) : MVal :=
  ((m.find? (fun p => p.1 == k)).map Prod.snd).getD .null

/-- Python dict.update on association lists: keys of upd override base values
in place, new keys are appended. -/
def dictUpdate (base upd : List (String × MVal)) : List (String × MVal) :=
  base.map (fun p =>
    match upd.find? (fun q => q.1 == p.1) with
    | some q => q
    | none => p)
  ++ upd.filter (fun q => !(base.any (fun p => p.1 == q.1)))

/-- Optional chapter number as a metadata value. -/
def omvInt : Option Int → MVal
  | none => .null
  | some n => .int n

/-- ISO timestamp string derived from the explicit clock parameter. -/
def tsIso (t : Nat) : String := "iso_" ++ toString t

/-- One harvested item as produced by ContentHarvester.harvest_page. -/
structure ContentData where
  url : String
  title : String
  content : String
  screenshotPath : String
  nextChapterUrl : Option String
  chapterNumber : Option Int
deriving DecidableEq, Repr

/-- State of VersionManager: the three ChromaDB collections it owns. -/
structure VMState where
  contentColl : Collection
  versionColl : Collection
  metaColl : Collection
deriving DecidableEq, Repr

/-- VersionManager._generate_content_fingerprint: a wall-clock second count
plus a content hash. sha models the sha256 hexdigest truncation. -/
def fingerprint (sha : String → String) (t : Nat) (content : String) : String :=
  "content_" ++ toString t ++ "_" ++ sha content

/-- VersionManager._generate_version_id: content id, version type and the
current wall-clock second. -/
def genVersionId (cid vtype : String) (t : Nat) : String :=
  cid ++ "_" ++ vtype ++ "_" ++ toString t

/-- VersionManager.store_source_content. -/
def vmStoreSourceContent (sha : String → String) (t : Nat) (cd : ContentData)
    (s : VMState) : String × VMState :=
  let cid := fingerprint sha t cd.content
  let meta := [("title", MVal.str cd.title), ("chapter_number", omvInt cd.chapterNumber),
    ("source_url", MVal.str cd.url), ("screenshot_path", MVal.str cd.screenshotPath),
    ("timestamp", MVal.str (tsIso t)), ("content_type", MVal.str "source")]
  (cid, { s with contentColl := upsert1 s.contentColl ⟨cid, cd.content, meta⟩ })

/-- VersionManager.store_content_version: builds the version id from the
clock, copies title and chapter number from the source item when it exists
(null otherwise), and upserts.  It does not fail when the content id is
unknown. -/
def vmStoreContentVersion (t : Nat) (cid vcontent vtype : String)
    (vmeta : List (String × MVal)) (s : VMState) : String × VMState :=
  let vid := genVersionId cid vtype t
  let srcMeta := ((getById s.contentColl cid).map CEntry.meta).getD []
  let meta := dictUpdate
    [("content_id", MVal.str cid), ("version_type", MVal.str vtype),
     ("timestamp", MVal.str (tsIso t)),
     ("chapter_number", metaGet srcMeta "chapter_number"),
     ("title", metaGet srcMeta "title")] vmeta
  (vid, { s with versionColl := upsert1 s.versionColl ⟨vid, vcontent, meta⟩ })

/-- VersionManager.get_content. -/
def vmGetContent (cid : String) (s : VMState) : Option CEntry :=
  getById s.contentColl cid

/-- VersionManager.get_version. -/
def vmGetVersion (vid : String) (s : VMState) : Option CEntry :=
  getById s.versionColl vid

/-- VersionManager.get_latest_version: a ChromaDB similarity query with the
stage name as query text and nResults 1, so the single hit nearest in
embedding space is returned, not the most recently created version. -/
def vmGetLatestVersion (dist : String → String → ℚ) (cid vtype : String)
    (s : VMState) : Option CEntry :=
  match queryHits dist vtype [("content_id", .str cid), ("version_type", .str vtype)] 1 s.versionColl with
  | [] => none
  | e :: _ => some e

/-- VersionManager.get_all_content: similarity query capped at 100 results. -/
def vmGetAllContent (dist : String → String → ℚ) (ctype : Option String)
    (s : VMState) : List CEntry :=
  let w := match ctype with
    | some ct => [("content_type", MVal.str ct)]
    | none => []
  queryHits dist "" w 100 s.contentColl

/-- VersionManager.get_all_versions: similarity query capped at 100 results. -/
def vmGetAllVersions (dist : String → String → ℚ) (cid : String)
    (s : VMState) : List CEntry :=
  queryHits dist "" [("content_id", MVal.str cid)] 100 s.versionColl

/-- VersionManager.store_project_metadata (the json payload is a string). -/
def vmStoreProjectMetadata (t : Nat) (mid payload : String) (s : VMState) : VMState :=
  { s with metaColl := upsert1 s.metaColl ⟨mid, payload, [("timestamp", MVal.str (tsIso t))]⟩ }

/-- State of ContentStore: chapters, chapter versions and metadata. -/
structure CSState where
  chapters : Collection
  versions : Collection
  metaColl : Collection
deriving DecidableEq, Repr

/-- ContentStore.store_original_chapter. -/
def csStoreOriginalChapter (chNum : Int) (title url content screenshot : String)
    (s : CSState) : String × CSState :=
  let chid := "chapter_" ++ toString chNum
  let meta := [("title", MVal.str title), ("chapter_number", MVal.int chNum),
    ("url", MVal.str url), ("screenshot_path", MVal.str screenshot),
    ("type", MVal.str "original")]
  (chid, { s with chapters := upsert1 s.chapters ⟨chid, content, meta⟩ })

/-- ContentStore.get_version_count: the Python code takes the length of the
OUTER ids list of the query result, which always has exactly one inner list
(one per query text), never the number of hits.  The default nResults of the
ChromaDB client is 10. -/
def csGetVersionCount (dist : String → String → ℚ) (chid vtype : String)
    (s : CSState) : Nat :=
  (query1 dist vtype [("chapter_id", MVal.str chid), ("version_type", MVal.str vtype)] 10 s.versions).ids.length

/-- ContentStore.store_chapter_version: the version number comes from
get_version_count, the id is built from it, and the record is upserted. -/
def csStoreChapterVersion (dist : String → String → ℚ) (t : Nat)
    (chid content vtype : String) (vmeta : List (String × MVal))
    (s : CSState) : String × CSState :=
  let chMeta := ((getById s.chapters chid).map CEntry.meta).getD []
  let vcount := csGetVersionCount dist chid vtype s
  let vid := chid ++ "_v" ++ vtype ++ "_" ++ toString (vcount + 1)
  let meta := dictUpdate
    [("chapter_id", MVal.str chid),
     ("chapter_number", metaGet chMeta "chapter_number"),
     ("title", metaGet chMeta "title"),
     ("version_type", MVal.str vtype),
     ("version_number", MVal.int (Int.ofNat (vcount + 1))),
     ("timestamp", MVal.str (tsIso t))] vmeta
  (vid, { s with versions := upsert1 s.versions ⟨vid, content, meta⟩ })

/-- ContentStore.get_chapter. -/
def csGetChapter (chid : String) (s : CSState) : Option CEntry :=
  getById s.chapters chid

/-- ContentStore.get_chapter_version. -/
def csGetChapterVersion (vid : String) (s : CSState) : Option CEntry :=
  getById s.versions vid

/-- ContentStore.get_latest_version: the emptiness check inspects the outer
result list (which always has length one), so when there are no hits the
code reaches the inner indexing and raises an IndexError, modelled as the
error case; otherwise the nearest-embedding hit is returned. -/
def csGetLatestVersion (dist : String → String → ℚ) (chid vtype : String)
    (s : CSState) : Except Unit CEntry :=
  match queryHits dist vtype [("chapter_id", MVal.str chid), ("version_type", MVal.str vtype)] 1 s.versions with
  | [] => .error ()
  | e :: _ => .ok e

/-- ContentStore.get_all_versions: query capped at 100 results. -/
def csGetAllVersions (dist : String → String → ℚ) (chid : String)
    (vtype : Option String) (s : CSState) : List CEntry :=
  let w := ("chapter_id", MVal.str chid) ::
    (match vtype with
     | some vt => [("version_type", MVal.str vt)]
     | none => [])
  queryHits dist "" w 100 s.versions

/-- Successful payload of the Gemini transform collaborator. -/
structure TOut where
  content : String
  model : String
  style : String
deriving DecidableEq, Repr

/-- Successful payload of the HuggingFace evaluator collaborator. -/
structure EOut where
  content : String
  model : String
  scores : String
deriving DecidableEq, Repr

/-- Status of a per-item processing result. -/
inductive ItemStatus where
  | success
  | failed
deriving DecidableEq, Repr

/-- Per-item outcome record of PublicationProcess.process_content_item. -/
structure ItemResult where
  contentId : String
  status : ItemStatus
  error : Option String
  transformVersionId : Option String
  evalVersionId : Option String
deriving DecidableEq, Repr

/-- PublicationProcess.process_content_item: store the source, transform (a
collaborator error result makes the item fail without touching later
stages), evaluate (an error there degrades to a null eval version id), and
report a per-item result. -/
def processContentItem (sha : String → String) (transform : Except String TOut)
    (evalr : Except String EOut) (t : Nat) (cd : ContentData) (s : VMState) :
    ItemResult × VMState :=
  let (cid, s1) := vmStoreSourceContent sha t cd s
  match transform with
  | .error e => (⟨cid, .failed, some e, none, none⟩, s1)
  | .ok tr =>
    let (tvid, s2) := vmStoreContentVersion t cid tr.content "transformed"
      [("model", MVal.str tr.model), ("transformation_style", MVal.str tr.style)] s1
    match evalr with
    | .error _ => (⟨cid, .success, none, some tvid, none⟩, s2)
    | .ok ev =>
      let (evid, s3) := vmStoreContentVersion t cid ev.content "evaluation"
        [("model", MVal.str ev.model), ("evaluation_scores", MVal.str ev.scores)] s2
      (⟨cid, .success, none, some tvid, some evid⟩, s3)

/-- ContentHarvester.harvest_content_sequence: follow next links from the
start url, harvesting at most maxPages pages; page models harvest_page. -/
def harvestSeq (page : String → ContentData) : Option String → Nat → List ContentData
  | _, 0 => []
  | none, _ => []
  | some url, n + 1 =>
    let h := page url
    h :: harvestSeq page h.nextChapterUrl n

/-- Per-item fan-out of run_publication_process: every item is processed
with its own collaborator outcomes (indexed by position), and the results
are collected in task order, as asyncio.gather preserves it. -/
def runItemsAux (sha : String → String) (tf : Nat → Except String TOut)
    (ef : Nat → Except String EOut) (t : Nat) :
    Nat → List ContentData → VMState → List ItemResult × VMState
  | _, [], s => ([], s)
  | i, cd :: rest, s =>
    let (r, s1) := processContentItem sha (tf i) (ef i) t cd s
    let (rs, s2) := runItemsAux sha tf ef t (i + 1) rest s1
    (r :: rs, s2)

/-- Status of a whole publication run. -/
inductive RunStatus where
  | success
  | failed
deriving DecidableEq, Repr

/-- Aggregate outcome of PublicationProcess.run_publication_process. -/
structure RunResult where
  status : RunStatus
  error : Option String
  contentCount : Nat
  results : List ItemResult
deriving DecidableEq, Repr

/-- PublicationProcess.run_publication_process: harvest with the harvester
default ceiling of 10 pages, fail when nothing is found, otherwise process
every item and aggregate (pid is the process id). -/
def runPublicationProcess (sha : String → String) (page : String → ContentData)
    (tf : Nat → Except String TOut) (ef : Nat → Except String EOut)
    (pid : String) (t : Nat) (startUrl : String) (s : VMState) :
    RunResult × VMState :=
  let items := harvestSeq page (some startUrl) 10
  if items.isEmpty then (⟨.failed, some "No content found", 0, []⟩, s)
  else
    let (rs, s1) := runItemsAux sha tf ef t 0 items s
    let s2 := vmStoreProjectMetadata t pid "process_results" s1
    (⟨.success, none, items.length, rs⟩, s2)

/-- main.run_process_with_logging: accepts maxChapters from the HTTP request
but never forwards it; run_publication_process is called with the start url
only. -/
def runProcessWithLogging (sha : String → String) (page : String → ContentData)
    (tf : Nat → Except String TOut) (ef : Nat → Except String EOut)
    (pid : String) (t : Nat) (startUrl : String) (maxChapters : Nat)
    (s : VMState) : RunResult × VMState :=
  runPublicationProcess sha page tf ef pid t startUrl s

/-- Outcome record of the refine operations. -/
structure RefineResult where
  status : ItemStatus
  error : Option String
  refinedVersionId : Option String
deriving DecidableEq, Repr

/-- PublicationProcess.refine_content: looks up the latest transformed
version only (there is no fallback to, nor any check of, edited versions),
then the original content, then calls the transform collaborator; a refined
version is stored only when everything succeeded. -/
def refineContent (dist : String → String → ℚ) (transform : Except String TOut)
    (t : Nat) (cid feedback : String) (s : VMState) : RefineResult × VMState :=
  match vmGetLatestVersion dist cid "transformed" s with
  | none => (⟨.failed, some "No transformed version found", none⟩, s)
  | some latest =>
    match vmGetContent cid s with
    | none => (⟨.failed, some "Original content not found", none⟩, s)
    | some _ =>
      match transform with
      | .error e => (⟨.failed, some e, none⟩, s)
      | .ok tr =>
        let (vid, s1) := vmStoreContentVersion t cid tr.content "refined"
          [("model", MVal.str tr.model), ("based_on_version", MVal.str latest.eid),
           ("human_feedback", MVal.str feedback)] s
        (⟨.success, none, some vid⟩, s1)

/-- PublisherWorkflow.iterative_refinement: get_latest_version of the edited
stage raises when no edited version exists (see csGetLatestVersion), so that
case surfaces as an exception rather than the structured failure result,
whose guard is unreachable; editor models the editor agent. -/
def iterativeRefinement (dist : String → String → ℚ) (editor : String → String)
    (t : Nat) (chid feedback : String) (s : CSState) :
    Except Unit (RefineResult × CSState) :=
  match csGetLatestVersion dist chid "edited" s with
  | .error () => .error ()
  | .ok latest =>
    match csGetChapter chid s with
    | none => .ok (⟨.failed, some "Chapter not found", none⟩, s)
    | some _ =>
      let out := editor latest.doc
      let (vid, s1) := csStoreChapterVersion dist t chid out "refined"
        [("model", MVal.str "gpt-4"), ("based_on_version", MVal.str latest.eid),
         ("human_feedback", MVal.str feedback)] s
      .ok (⟨.success, none, some vid⟩, s1)

/-- The nested state-action value table of RLSearchAlgorithm: a Python dict
of dicts, both in insertion order. -/
abbrev Qtab := List (String × List (String × ℚ))

/-- Value lookup in an inner action dict. -/
def qfind (sa : List (String × ℚ)) (a : String) : Option ℚ :=
  (sa.find? (fun p => p.1 == a)).map Prod.snd

/-- Python dict assignment on an inner action dict: update in place or
append. -/
def qset (sa : List (String × ℚ)) (a : String) (v : ℚ) : List (String × ℚ) :=
  if sa.any (fun p => p.1 == a) then
    sa.map (fun p => if p.1 == a then (a, v) else p)
  else sa ++ [(a, v)]

/-- Lookup of a state key in the outer dict. -/
def tfind (t : Qtab) (s : String) : Option (List (String × ℚ)) :=
  (t.find? (fun p => p.1 == s)).map Prod.snd

/-- Python dict assignment on the outer dict. -/
def tset (t : Qtab) (s : String) (sa : List (String × ℚ)) : Qtab :=
  if t.any (fun p => p.1 == s) then
    t.map (fun p => if p.1 == s then (s, sa) else p)
  else t ++ [(s, sa)]

/-- The stored value at a state-action pair, as an option. -/
def entryOpt (t : Qtab) (s a : String) : Option ℚ :=
  match tfind t s with
  | none => none
  | some sa => qfind sa a

/-- The value read for a state-action pair, defaulting to 0; this is what
_get_q_value returns. -/
def qread (t : Qtab) (s a : String) : ℚ :=
  (entryOpt t s a).getD 0

/-- First ensure step of the Python getters: if the state key is absent, an
empty inner dict is installed. -/
def ensureState (t : Qtab) (s : String) : Qtab :=
  match tfind t s with
  | some _ => t
  | none => tset t s []

/-- Second ensure step: if the action is absent from the state's inner dict,
it is installed with value 0. -/
def ensureAction (t : Qtab) (s a : String) : Qtab :=
  let sa := (tfind t s).getD []
  match qfind sa a with
  | some _ => t
  | none => tset t s (qset sa a 0)

/-- RLSearchAlgorithm._get_q_value: ensures the entry exists (a mutating
read) and returns its value. -/
def getQValue (t : Qtab) (s a : String) : ℚ × Qtab :=
  let t1 := ensureAction (ensureState t s) s a
  (qread t1 s a, t1)

/-- Maximum over the values of an inner dict (0 on the empty one, which the
Python path computing it never reaches). -/
def maxVals : List (String × ℚ) → ℚ
  | [] => 0
  | p :: rest => rest.foldl (fun m q => max m q.2) p.2

/-- RLSearchAlgorithm._update_q_value: ensure the entry, then apply the
Q-learning update.  The discounted next-state term participates only when
the next state key is present with a non-empty inner dict at read time, that
is after the ensure steps for the current pair have run. -/
def updateQValue (al ga : ℚ) (t : Qtab) (s a : String) (r : ℚ)
    (next : Option String) : Qtab :=
  let t1 := ensureAction (ensureState t s) s a
  let old := qread t1 s a
  let newq :=
    match next with
    | none => old + al * (r - old)
    | some ns =>
      match tfind t1 ns with
      | none => old + al * (r - old)
      | some [] => old + al * (r - old)
      | some (p :: rest) => old + al * (r + ga * maxVals (p :: rest) - old)
  tset t1 s (qset ((tfind t1 s).getD []) a newq)

/-- The dict comprehension of select_action: fold of _get_q_value over the
candidate actions, threading the table mutation. -/
def computeQs (t : Qtab) (s : String) : List String → List (String × ℚ) × Qtab
  | [] => ([], t)
  | a :: rest =>
    let (v, t1) := getQValue t s a
    let (qs, t2) := computeQs t1 s rest
    ((a, v) :: qs, t2)

/-- All listed values are equal: the set of the dict values has size one. -/
def allEqQ : List ℚ → Bool
  | [] => true
  | v :: vs => vs.all (fun w => w == v)

/-- Python max over dict keys with the value as sort key: the first key
attaining the maximum value. -/
def argmaxFirst : List (String × ℚ) → Option String
  | [] => none
  | p :: rest => some (rest.foldl (fun best q => if q.2 > best.2 then q else best) p).1

/-- RLSearchAlgorithm.select_action: u is the draw of np.random.random() and
k the draw behind np.random.choice; an empty candidate list yields none;
with probability eps a uniform random candidate is returned untouched,
otherwise the q values are read (mutating the table) and the greedy choice
is made, falling back to a uniform random candidate when all values tie. -/
def selectAction (eps u : ℚ) (k : Nat) (t : Qtab) (s : String)
    (acts : List String) : Option String × Qtab :=
  match acts with
  | [] => (none, t)
  | a :: rest =>
    if u < eps then ((a :: rest).get? (k % (a :: rest).length), t)
    else
      let (qs, t1) := computeQs t s (a :: rest)
      if allEqQ (qs.map Prod.snd) then ((a :: rest).get? (k % (a :: rest).length), t1)
      else (argmaxFirst qs, t1)

/-- RLSearchAlgorithm._get_state_key: the query alone without context, else
the query joined with the allow-listed context entries in sorted key
order. -/
def getStateKey (query : String) (ctx : Option (List (String × String))) : String :=
  match ctx with
  | none => query
  | some c =>
    let keys := sortLe (fun a b => decide (a ≤ b)) (c.map Prod.fst)
    let parts := keys.filterMap (fun k =>
      if k == "chapter_id" || k == "version_type" then
        some (k ++ "=" ++ (((c.find? (fun p => p.1 == k)).map Prod.snd).getD ""))
      else none)
    String.intercalate "|" (query :: parts)

/-- An item handed to RLSearchAlgorithm.search. -/
structure SItem where
  sid : String
  content : String
deriving DecidableEq, Repr

/-- The observe loop of search: update every item's value with its reward
(no next state key), then read the updated value back for the result row. -/
def observeAll (al ga : ℚ) (t : Qtab) (skey query : String)
    (rw : SItem → String → ℚ) : List SItem → List (SItem × ℚ × ℚ) × Qtab
  | [] => ([], t)
  | it :: rest =>
    let r := rw it query
    let t1 := updateQValue al ga t skey it.sid r none
    let (v, t2) := getQValue t1 skey it.sid
    let (rs, t3) := observeAll al ga t2 skey query rw rest
    ((it, r, v) :: rs, t3)

/-- RLSearchAlgorithm.search: derive the state key, select an action among
the item ids, observe every item's reward, and return the scored items
sorted by updated value descending (a stable sort, like Python sorted).
The reward function is the caller-supplied parameter of the source. -/
def searchRL (al ga eps u : ℚ) (k : Nat) (t : Qtab) (query : String)
    (items : List SItem) (ctx : Option (List (String × String)))
    (rw : SItem → String → ℚ) : List (SItem × ℚ × ℚ) × Qtab :=
  match items with
  | [] => ([], t)
  | _ =>
    let skey := getStateKey query ctx
    let (_, t1) := selectAction eps u k t skey (items.map SItem.sid)
    let (res, t2) := observeAll al ga t1 skey query rw items
    (sortLe (fun a b => decide (b.2.2 ≤ a.2.2)) res, t2)

/-- Specification reading of maxNextValue with every quantity taken from the
table as it was before the observe call: the maximum stored value at the
next state key, 0 when that key is not supplied, absent, or empty. -/
def specMaxNext (t : Qtab) (next : Option String) : ℚ :=
  match next with
  | none => 0
  | some ns =>
    match tfind t ns with
    | none => 0
    | some [] => 0
    | some (p :: rest) => maxVals (p :: rest)

/-- Specification update formula of the claim, with oldValue and
maxNextValue both read from the pre-call table. -/
def specObserveValue (al ga : ℚ) (t : Qtab) (s a : String) (r : ℚ)
    (next : Option String) : ℚ :=
  qread t s a + al * (r + ga * specMaxNext t next - qread t s a)

/-- A three-page demo site for exercising the harvester model. -/
def c4page : String → ContentData := fun url =>
  if url = "u1" then ⟨"u1", "T1", "c1", "s1", some "u2", some 1⟩
  else if url = "u2" then ⟨"u2", "T2", "c2", "s2", some "u3", some 2⟩
  else ⟨"u3", "T3", "c3", "s3", none, some 3⟩

/-- Maximum of a list of values, 0 on the empty list (the specification-side
companion of maxVals for stating greedy-selection properties). -/
def maxQList : List ℚ → ℚ
  | [] => 0
  | v :: vs => vs.foldl max v

theorem getById_upsert1_self (c : Collection) (e : CEntry) :
    getById (upsert1 c e) e.eid = some e := by
  induction c with
  | nil => simp [upsert1, getById]
  | cons x xs ih =>
    by_cases hx : x.eid = e.eid
    · simp [upsert1, getById, List.any_cons, hx, List.find?_cons]
    · by_cases hxs : xs.any (fun y => y.eid == e.eid)
      · simp only [upsert1, hxs] at ih
        simp [upsert1, getById, List.any_cons, hx, hxs, List.find?_cons]
        simpa [getById] using ih
      · simp only [upsert1, hxs] at ih
        simp [upsert1, getById, List.any_cons, hx, hxs, List.find?_cons]
        simpa [getById] using ih

theorem qfind_qset_self (sa : List (String × ℚ)) (a : String) (v : ℚ) :
    qfind (qset sa a v) a = some v := by
  induction sa with
  | nil => simp [qset, qfind]
  | cons p ps ih =>
    by_cases hp : p.1 = a
    · simp [qset, qfind, List.any_cons, hp, List.find?_cons]
    · by_cases hps : ps.any (fun q => q.1 == a)
      · simp only [qset, hps] at ih
        simp [qset, qfind, List.any_cons, hp, hps, List.find?_cons]
        simpa [qfind] using ih
      · simp only [qset, hps] at ih
        simp [qset, qfind, List.any_cons, hp, hps, List.find?_cons]
        simpa [qfind] using ih



theorem find_map_if {β : Type} (ps : List (String × β)) (a : String) (v : β)
    (b : String) (hb : b ≠ a) :
    List.find? (fun p => p.1 == b) (ps.map (fun p => if (p.1 == a) = true then (a, v) else p)) =
      List.find? (fun p => p.1 == b) ps := by
  induction ps with
  | nil => rfl
  | cons p ps ih =>
    by_cases hp : p.1 = a
    · have h0 : (p.1 == a) = true := by simp [hp]
      have hab : (a == b) = false := by simp [Ne.symm hb]
      have h2 : (p.1 == b) = false := by simp [hp, Ne.symm hb]
      simp only [List.map_cons, h0, if_true, List.find?, hab, h2]
      exact ih
    · have h0 : (p.1 == a) = false := by simp [hp]
      by_cases hpb : p.1 = b
      · have h2 : (p.1 == b) = true := by simp [hpb]
        simp only [List.map_cons, h0, Bool.false_eq_true, if_false, List.find?, h2]
      · have h2 : (p.1 == b) = false := by simp [hpb]
        simp only [List.map_cons, h0, Bool.false_eq_true, if_false, List.find?, h2]
        exact ih

theorem find_append_single {β : Type} (ps : List (String × β)) (a : String)
    (v : β) (b : String) (hb : b ≠ a) :
    List.find? (fun p => p.1 == b) (ps ++ [(a, v)]) =
      List.find? (fun p => p.1 == b) ps := by
  have h1 : (a == b) = false := by simp [Ne.symm hb]
  induction ps with
  | nil => simp [List.find?_cons, h1]
  | cons p ps ih =>
    by_cases hpb : p.1 = b
    · simp [List.find?_cons, hpb]
    · have h2 : (p.1 == b) = false := by simp [hpb]
      simp [List.find?_cons, h2, ih]

theorem qfind_qset_other (sa : List (String × ℚ)) (a : String) (v : ℚ)
    (b : String) (hb : b ≠ a) : qfind (qset sa a v) b = qfind sa b := by
  unfold qfind qset
  by_cases hany : sa.any (fun q => q.1 == a)
  · simp only [hany, if_true]
    rw [find_map_if sa a v b hb]
  · simp only [hany, Bool.false_eq_true, if_false]
    rw [find_append_single sa a v b hb]

theorem tfind_tset_self (t : Qtab) (s : String) (sa : List (String × ℚ)) :
    tfind (tset t s sa) s = some sa := by
  induction t with
  | nil => simp [tset, tfind]
  | cons p ps ih =>
    by_cases hp : p.1 = s
    · simp [tset, tfind, List.any_cons, hp, List.find?_cons]
    · by_cases hps : ps.any (fun q => q.1 == s)
      · simp only [tset, hps] at ih
        simp [tset, tfind, List.any_cons, hp, hps, List.find?_cons]
        simpa [tfind] using ih
      · simp only [tset, hps] at ih
        simp [tset, tfind, List.any_cons, hp, hps, List.find?_cons]
        simpa [tfind] using ih

theorem tfind_tset_other (t : Qtab) (s : String) (sa : List (String × ℚ))
    (s' : String) (hs : s' ≠ s) : tfind (tset t s sa) s' = tfind t s' := by
  unfold tfind tset
  by_cases hany : t.any (fun q => q.1 == s)
  · simp only [hany, if_true]
    rw [find_map_if t s sa s' hs]
  · simp only [hany, Bool.false_eq_true, if_false]
    rw [find_append_single t s sa s' hs]

theorem entryOpt_ensureState (t : Qtab) (s s' a' : String) :
    entryOpt (ensureState t s) s' a' = entryOpt t s' a' := by
  unfold ensureState
  cases h : tfind t s with
  | some sa => rfl
  | none =>
    unfold entryOpt
    by_cases hs : s' = s
    · subst hs
      rw [tfind_tset_self, h]
      rfl
    · rw [tfind_tset_other t s [] s' hs]

theorem entryOpt_ensureAction_self (t : Qtab) (s a : String) :
    entryOpt (ensureAction t s a) s a = some (qread t s a) := by
  unfold ensureAction
  cases h : tfind t s with
  | none =>
    simp only [h, Option.getD_none]
    cases hq : qfind [] a with
    | none => simp [entryOpt, qread, tfind_tset_self, qfind_qset_self, h, hq]
    | some v => simp [qfind] at hq
  | some sa =>
    simp only [h, Option.getD_some]
    cases hq : qfind sa a with
    | none => simp [entryOpt, qread, tfind_tset_self, qfind_qset_self, h, hq]
    | some v => simp [entryOpt, qread, h, hq]

theorem entryOpt_ensureAction_other (t : Qtab) (s a s' a' : String)
    (hne : ¬(s' = s ∧ a' = a)) :
    entryOpt (ensureAction t s a) s' a' = entryOpt t s' a' := by
  unfold ensureAction
  cases hq : qfind ((tfind t s).getD []) a with
  | some v => simp only [hq]
  | none =>
    simp only [hq]
    by_cases hs : s' = s
    · subst hs
      have ha : a' ≠ a := fun h => hne ⟨rfl, h⟩
      cases h : tfind t s' with
      | none =>
        simp [h, entryOpt, tfind_tset_self, qfind_qset_other _ _ _ _ ha, qfind,
          qset, Ne.symm ha]
      | some sa0 =>
        simp [h, entryOpt, tfind_tset_self, qfind_qset_other _ _ _ _ ha]
    · simp [entryOpt, tfind_tset_other _ _ _ _ hs]

theorem entryOpt_ensure2_self (t : Qtab) (s a : String) :
    entryOpt (ensureAction (ensureState t s) s a) s a = some (qread t s a) := by
  rw [entryOpt_ensureAction_self]
  congr 1
  unfold qread
  rw [entryOpt_ensureState]

theorem entryOpt_ensure2_other (t : Qtab) (s a s' a' : String)
    (hne : ¬(s' = s ∧ a' = a)) :
    entryOpt (ensureAction (ensureState t s) s a) s' a' = entryOpt t s' a' := by
  rw [entryOpt_ensureAction_other _ _ _ _ _ hne, entryOpt_ensureState]

theorem qread_ensure2 (t : Qtab) (s a s' a' : String) :
    qread (ensureAction (ensureState t s) s a) s' a' = qread t s' a' := by
  by_cases h : s' = s ∧ a' = a
  · obtain ⟨h1, h2⟩ := h
    subst h1; subst h2
    unfold qread
    rw [entryOpt_ensure2_self]
    rfl
  · unfold qread
    rw [entryOpt_ensure2_other _ _ _ _ _ h]

theorem entryOpt_tset_qset_self (t1 : Qtab) (s a : String) (v : ℚ) :
    entryOpt (tset t1 s (qset ((tfind t1 s).getD []) a v)) s a = some v := by
  unfold entryOpt
  simp [tfind_tset_self, qfind_qset_self]

theorem entryOpt_tset_qset_other (t1 : Qtab) (s a s' a' : String) (v : ℚ)
    (hne : ¬(s' = s ∧ a' = a)) :
    entryOpt (tset t1 s (qset ((tfind t1 s).getD []) a v)) s' a' = entryOpt t1 s' a' := by
  by_cases hs : s' = s
  · subst hs
    have ha : a' ≠ a := fun h => hne ⟨rfl, h⟩
    unfold entryOpt
    cases h : tfind t1 s' with
    | none =>
      simp [tfind_tset_self, h, qfind_qset_other _ _ _ _ ha, qfind, qset, Ne.symm ha]
    | some sa => simp [tfind_tset_self, h, qfind_qset_other _ _ _ _ ha]
  · unfold entryOpt
    rw [tfind_tset_other _ _ _ _ hs]

theorem qread_updateQValue_self (al ga : ℚ) (t : Qtab) (s a : String) (r : ℚ)
    (next : Option String) :
    qread (updateQValue al ga t s a r next) s a =
      qread t s a +
        al * (r + ga * specMaxNext (ensureAction (ensureState t s) s a) next - qread t s a) := by
  have hq : qread (updateQValue al ga t s a r next) s a
      = (entryOpt (updateQValue al ga t s a r next) s a).getD 0 := rfl
  rw [hq]
  simp only [updateQValue]
  rw [entryOpt_tset_qset_self]
  simp only [Option.getD_some]
  rw [qread_ensure2 t s a s a]
  cases next with
  | none =>
    simp only [specMaxNext]
    ring
  | some ns =>
    cases h : tfind (ensureAction (ensureState t s) s a) ns with
    | none =>
      simp only [specMaxNext, h]
      ring
    | some sa0 =>
      cases sa0 with
      | nil =>
        simp only [specMaxNext, h]
        ring
      | cons p rest =>
        simp only [specMaxNext, h]

theorem entryOpt_updateQValue_other (al ga : ℚ) (t : Qtab) (s a : String)
    (r : ℚ) (next : Option String) (s' a' : String) (hne : ¬(s' = s ∧ a' = a)) :
    entryOpt (updateQValue al ga t s a r next) s' a' = entryOpt t s' a' := by
  simp only [updateQValue]
  rw [entryOpt_tset_qset_other _ _ _ _ _ _ hne]
  exact entryOpt_ensure2_other _ _ _ _ _ hne

theorem entryOpt_updateQValue_self_isSome (al ga : ℚ) (t : Qtab) (s a : String)
    (r : ℚ) (next : Option String) :
    (entryOpt (updateQValue al ga t s a r next) s a).isSome := by
  simp only [updateQValue]
  rw [entryOpt_tset_qset_self]
  rfl

theorem getQValue_fst (t : Qtab) (s a : String) :
    (getQValue t s a).1 = qread t s a := by
  unfold getQValue
  exact qread_ensure2 t s a s a

theorem qread_getQValue_snd (t : Qtab) (s a s' a' : String) :
    qread (getQValue t s a).2 s' a' = qread t s' a' := by
  unfold getQValue
  exact qread_ensure2 t s a s' a'

theorem entryOpt_getQValue_self (t : Qtab) (s a : String) :
    entryOpt (getQValue t s a).2 s a = some (qread t s a) := by
  unfold getQValue
  exact entryOpt_ensure2_self t s a

theorem entryOpt_getQValue_preserve (t : Qtab) (s a s' a' : String) (v : ℚ)
    (h : entryOpt t s' a' = some v) :
    entryOpt (getQValue t s a).2 s' a' = some v := by
  unfold getQValue
  by_cases hne : s' = s ∧ a' = a
  · obtain ⟨h1, h2⟩ := hne
    subst h1; subst h2
    rw [entryOpt_ensure2_self]
    simp [qread, h]
  · rw [entryOpt_ensure2_other _ _ _ _ _ hne]
    exact h

theorem computeQs_fst (t : Qtab) (s : String) (l : List String) :
    (computeQs t s l).1 = l.map (fun a => (a, qread t s a)) := by
  induction l generalizing t with
  | nil => rfl
  | cons a rest ih =>
    have step : (computeQs t s (a :: rest)).1
        = (a, (getQValue t s a).1) :: (computeQs (getQValue t s a).2 s rest).1 := rfl
    rw [step, getQValue_fst, ih]
    simp only [List.map_cons, List.cons.injEq, true_and]
    apply List.map_congr_left
    intro b _
    rw [qread_getQValue_snd]

theorem entryOpt_computeQs_preserve (t : Qtab) (s : String) (l : List String)
    (s' a' : String) (v : ℚ) (h : entryOpt t s' a' = some v) :
    entryOpt (computeQs t s l).2 s' a' = some v := by
  induction l generalizing t with
  | nil => exact h
  | cons a rest ih =>
    have step : (computeQs t s (a :: rest)).2 = (computeQs (getQValue t s a).2 s rest).2 := rfl
    rw [step]
    exact ih _ (entryOpt_getQValue_preserve _ _ _ _ _ _ h)

theorem entryOpt_computeQs_mem (t : Qtab) (s : String) (l : List String) :
    ∀ a ∈ l, entryOpt (computeQs t s l).2 s a = some (qread t s a) := by
  induction l generalizing t with
  | nil =>
    intro a ha
    cases ha
  | cons b rest ih =>
    intro a ha
    have step : (computeQs t s (b :: rest)).2 = (computeQs (getQValue t s b).2 s rest).2 := rfl
    rw [step]
    by_cases hmem : a ∈ rest
    · rw [ih _ a hmem, qread_getQValue_snd]
    · have hab : a = b := by
        rcases List.mem_cons.mp ha with h | h
        · exact h
        · exact absurd h hmem
      subst hab
      apply entryOpt_computeQs_preserve
      exact entryOpt_getQValue_self t s a

theorem isSome_entryOpt_updateQValue (al ga : ℚ) (t : Qtab) (s a : String)
    (r : ℚ) (next : Option String) (s' a' : String)
    (h : (entryOpt t s' a').isSome) :
    (entryOpt (updateQValue al ga t s a r next) s' a').isSome := by
  by_cases hne : s' = s ∧ a' = a
  · obtain ⟨h1, h2⟩ := hne
    subst h1; subst h2
    exact entryOpt_updateQValue_self_isSome al ga t s' a' r next
  · rw [entryOpt_updateQValue_other _ _ _ _ _ _ _ _ _ hne]
    exact h

theorem isSome_entryOpt_getQValue (t : Qtab) (s a s' a' : String)
    (h : (entryOpt t s' a').isSome) :
    (entryOpt (getQValue t s a).2 s' a').isSome := by
  unfold getQValue
  by_cases hne : s' = s ∧ a' = a
  · obtain ⟨h1, h2⟩ := hne
    subst h1; subst h2
    rw [entryOpt_ensure2_self]
    rfl
  · rw [entryOpt_ensure2_other _ _ _ _ _ hne]
    exact h

theorem isSome_entryOpt_observeAll_preserve (al ga : ℚ) (skey query : String)
    (rwf : SItem → String → ℚ) (l : List SItem) (t : Qtab) (s' a' : String)
    (h : (entryOpt t s' a').isSome) :
    (entryOpt (observeAll al ga t skey query rwf l).2 s' a').isSome := by
  induction l generalizing t with
  | nil => exact h
  | cons it rest ih =>
    have step : (observeAll al ga t skey query rwf (it :: rest)).2
        = (observeAll al ga
            (getQValue (updateQValue al ga t skey it.sid (rwf it query) none) skey it.sid).2
            skey query rwf rest).2 := rfl
    rw [step]
    apply ih
    apply isSome_entryOpt_getQValue
    apply isSome_entryOpt_updateQValue
    exact h

theorem isSome_entryOpt_observeAll_mem (al ga : ℚ) (skey query : String)
    (rwf : SItem → String → ℚ) (l : List SItem) (t : Qtab) :
    ∀ it ∈ l, (entryOpt (observeAll al ga t skey query rwf l).2 skey it.sid).isSome := by
  induction l generalizing t with
  | nil =>
    intro it h
    cases h
  | cons j rest ih =>
    intro it hit
    have step : (observeAll al ga t skey query rwf (j :: rest)).2
        = (observeAll al ga
            (getQValue (updateQValue al ga t skey j.sid (rwf j query) none) skey j.sid).2
            skey query rwf rest).2 := rfl
    rw [step]
    rcases List.mem_cons.mp hit with h | h
    · subst h
      apply isSome_entryOpt_observeAll_preserve
      apply isSome_entryOpt_getQValue
      exact entryOpt_updateQValue_self_isSome al ga t skey it.sid (rwf it query) none
    · exact ih _ it h

theorem argmax_foldl_spec (l : List (String × ℚ)) (p : String × ℚ) :
    (l.foldl (fun best q => if q.2 > best.2 then q else best) p = p ∨
      l.foldl (fun best q => if q.2 > best.2 then q else best) p ∈ l) ∧
    (l.foldl (fun best q => if q.2 > best.2 then q else best) p).2 =
      l.foldl (fun m q => max m q.2) p.2 := by
  induction l generalizing p with
  | nil => exact ⟨Or.inl rfl, rfl⟩
  | cons q rest ih =>
    constructor
    · rcases (ih (if q.2 > p.2 then q else p)).1 with h | h
      · simp only [List.foldl_cons]
        rw [h]
        by_cases hq : q.2 > p.2
        · right
          simp [hq]
        · left
          simp [hq]
      · right
        simp only [List.foldl_cons]
        exact List.mem_cons_of_mem _ h
    · simp only [List.foldl_cons]
      rw [(ih (if q.2 > p.2 then q else p)).2]
      congr 1
      by_cases hq : q.2 > p.2
      · simp [hq, max_eq_right (le_of_lt hq)]
      · simp [hq, max_eq_left (le_of_not_lt hq)]

theorem argmaxFirst_cons (p : String × ℚ) (rest : List (String × ℚ)) :
    ∃ q : String × ℚ, argmaxFirst (p :: rest) = some q.1 ∧ (q = p ∨ q ∈ rest) ∧
      q.2 = maxQList ((p :: rest).map Prod.snd) := by
  refine ⟨rest.foldl (fun best q => if q.2 > best.2 then q else best) p, ?_,
    (argmax_foldl_spec rest p).1, ?_⟩
  · rfl
  · rw [(argmax_foldl_spec rest p).2]
    simp [maxQList, List.foldl_map]

theorem selectAction_eps_zero_eq (t : Qtab) (s : String) (a : String)
    (rest : List String) (u : ℚ) (k : Nat) (hu : 0 ≤ u) :
    (selectAction 0 u k t s (a :: rest)).1 =
      if allEqQ ((computeQs t s (a :: rest)).1.map Prod.snd) then
        (a :: rest).get? (k % (a :: rest).length)
      else argmaxFirst (computeQs t s (a :: rest)).1 := by
  have hred : selectAction 0 u k t s (a :: rest) =
      if u < 0 then ((a :: rest).get? (k % (a :: rest).length), t)
      else
        if allEqQ ((computeQs t s (a :: rest)).1.map Prod.snd) = true then
          ((a :: rest).get? (k % (a :: rest).length), (computeQs t s (a :: rest)).2)
        else (argmaxFirst (computeQs t s (a :: rest)).1, (computeQs t s (a :: rest)).2) := rfl
  rw [hred, if_neg (not_lt.mpr hu)]
  by_cases hc : allEqQ ((computeQs t s (a :: rest)).1.map Prod.snd) = true
  · rw [if_pos hc, if_pos hc]
  · rw [if_neg hc, if_neg hc]

theorem processContentItem_ok_status (sha : String → String) (o : TOut)
    (evalr : Except String EOut) (t : Nat) (cd : ContentData) (s : VMState) :
    (processContentItem sha (.ok o) evalr t cd s).1.status = .success := by
  cases evalr <;> rfl

theorem processContentItem_err_status (sha : String → String) (e : String)
    (evalr : Except String EOut) (t : Nat) (cd : ContentData) (s : VMState) :
    (processContentItem sha (.error e) evalr t cd s).1.status = .failed := by
  cases evalr <;> rfl

theorem processContentItem_err_error (sha : String → String) (e : String)
    (evalr : Except String EOut) (t : Nat) (cd : ContentData) (s : VMState) :
    (processContentItem sha (.error e) evalr t cd s).1.error = some e := by
  cases evalr <;> rfl

theorem runItemsAux_zero_three (sha : String → String) (tf : Nat → Except String TOut)
    (ef : Nat → Except String EOut) (t : Nat) (i1 i2 i3 : ContentData) (s : VMState) :
    (runItemsAux sha tf ef t 0 [i1, i2, i3] s).1 =
      [(processContentItem sha (tf 0) (ef 0) t i1 s).1,
       (processContentItem sha (tf 1) (ef 1) t i2
         (processContentItem sha (tf 0) (ef 0) t i1 s).2).1,
       (processContentItem sha (tf 2) (ef 2) t i3
         (processContentItem sha (tf 1) (ef 1) t i2
           (processContentItem sha (tf 0) (ef 0) t i1 s).2).2).1] := rfl

theorem vmStoreContentVersion_spec (t : Nat) (cid body vtype : String)
    (vmeta : List (String × MVal)) (s : VMState) :
    vmGetVersion (vmStoreContentVersion t cid body vtype vmeta s).1
        (vmStoreContentVersion t cid body vtype vmeta s).2 =
      some ⟨genVersionId cid vtype t, body,
        dictUpdate [("content_id", MVal.str cid), ("version_type", MVal.str vtype),
          ("timestamp", MVal.str (tsIso t)),
          ("chapter_number",
            metaGet (((getById s.contentColl cid).map CEntry.meta).getD []) "chapter_number"),
          ("title", metaGet (((getById s.contentColl cid).map CEntry.meta).getD []) "title")]
          vmeta⟩ := by
  unfold vmGetVersion vmStoreContentVersion
  exact getById_upsert1_self _ _

/-- C10: every listing operation of the store truncates its result to at most
100 records no matter how many match: get_all_content and get_all_versions of
VersionManager, and get_all_versions of ContentStore, all pass nResults 100
to the underlying query. -/
theorem c10_listings_truncate_at_100 (dist : String → String → ℚ)
    (ctype : Option String) (cid chid : String) (vtype : Option String)
    (s : VMState) (cs : CSState) :
    (vmGetAllContent dist ctype s).length ≤ 100 ∧
    (vmGetAllVersions dist cid s).length ≤ 100 ∧
    (csGetAllVersions dist chid vtype cs).length ≤ 100 := by
  refine ⟨?_, ?_, ?_⟩ <;>
  · simp only [vmGetAllContent, vmGetAllVersions, csGetAllVersions, queryHits,
      List.length_take]
    omega

/-- C8: the maxChapters value accepted by the process-start endpoint has no
effect on the run: run_process_with_logging behaves identically for any two
values because run_publication_process never receives it, and the item count
of a successful run is exactly the length of the harvest performed with the
harvester default ceiling of 10 pages. -/
theorem c8_max_chapters_has_no_effect (sha : String → String)
    (page : String → ContentData) (tf : Nat → Except String TOut)
    (ef : Nat → Except String EOut) (pid : String) (t : Nat)
    (startUrl : String) (mc1 mc2 : Nat) (s : VMState) :
    runProcessWithLogging sha page tf ef pid t startUrl mc1 s =
      runProcessWithLogging sha page tf ef pid t startUrl mc2 s ∧
    runProcessWithLogging sha page tf ef pid t startUrl mc1 s =
      runPublicationProcess sha page tf ef pid t startUrl s ∧
    (harvestSeq page (some startUrl) 10 ≠ [] →
      (runProcessWithLogging sha page tf ef pid t startUrl mc1 s).1.contentCount =
        (harvestSeq page (some startUrl) 10).length) := by
  refine ⟨rfl, rfl, ?_⟩
  intro hne
  unfold runProcessWithLogging runPublicationProcess
  rw [if_neg (by simp [List.isEmpty_iff, hne])]

theorem c8_witness :
    harvestSeq (fun _ => ⟨"u", "T", "c", "sp", none, none⟩) (some "u") 10 ≠ [] ∧
    (runProcessWithLogging (fun _ => "h") (fun _ => ⟨"u", "T", "c", "sp", none, none⟩)
        (fun _ => .error "e") (fun _ => .error "e") "p" 0 "u" 5
        ⟨[], [], []⟩).1.contentCount =
      (harvestSeq (fun _ => ⟨"u", "T", "c", "sp", none, none⟩) (some "u") 10).length :=
  ⟨by decide,
   (c8_max_chapters_has_no_effect (fun _ => "h") (fun _ => ⟨"u", "T", "c", "sp", none, none⟩)
      (fun _ => .error "e") (fun _ => .error "e") "p" 0 "u" 5 7 ⟨[], [], []⟩).2.2 (by decide)⟩

/-- C2 counterexample: storing a version for the unknown content id c9 on an
empty store does not fail and does persist a Version, against the claim that
the call fails with UnknownContent and persists nothing. -/
theorem c2_counterexample :
    vmGetContent "c9" ⟨[], [], []⟩ = none ∧
    ((vmStoreContentVersion 5 "c9" "body" "transformed" [] ⟨[], [], []⟩).2.versionColl).length = 1 ∧
    (vmGetVersion (vmStoreContentVersion 5 "c9" "body" "transformed" [] ⟨[], [], []⟩).1
      (vmStoreContentVersion 5 "c9" "body" "transformed" [] ⟨[], [], []⟩).2).isSome := by
  refine ⟨rfl, ?_, ?_⟩ <;> decide

/-- C2 (amended): store_content_version with a content id for which no
ContentItem exists succeeds rather than failing: it returns a version id
under which the version body is retrievable, it leaves the content
collection unchanged, and the source-derived title metadata of the stored
version is null. -/
theorem c2_store_version_unknown_content_succeeds (t : Nat)
    (cid body vtype : String) (s : VMState) (h : vmGetContent cid s = none) :
    (vmGetVersion (vmStoreContentVersion t cid body vtype [] s).1
        (vmStoreContentVersion t cid body vtype [] s).2).map CEntry.doc = some body ∧
    (vmStoreContentVersion t cid body vtype [] s).2.contentColl = s.contentColl ∧
    (vmGetVersion (vmStoreContentVersion t cid body vtype [] s).1
        (vmStoreContentVersion t cid body vtype [] s).2).map
      (fun e => metaGet e.meta "title") = some MVal.null := by
  have hsrc : getById s.contentColl cid = none := h
  refine ⟨?_, rfl, ?_⟩
  · rw [vmStoreContentVersion_spec]
    rfl
  · rw [vmStoreContentVersion_spec, hsrc]
    rfl

theorem c2_witness :
    vmGetContent "c9" ⟨[], [], []⟩ = none ∧
    ((vmGetVersion (vmStoreContentVersion 5 "c9" "body" "transformed" [] ⟨[], [], []⟩).1
        (vmStoreContentVersion 5 "c9" "body" "transformed" [] ⟨[], [], []⟩).2).map CEntry.doc =
          some "body" ∧
      (vmStoreContentVersion 5 "c9" "body" "transformed" [] ⟨[], [], []⟩).2.contentColl =
        (⟨[], [], []⟩ : VMState).contentColl ∧
      (vmGetVersion (vmStoreContentVersion 5 "c9" "body" "transformed" [] ⟨[], [], []⟩).1
          (vmStoreContentVersion 5 "c9" "body" "transformed" [] ⟨[], [], []⟩).2).map
        (fun e => metaGet e.meta "title") = some MVal.null) :=
  ⟨rfl, c2_store_version_unknown_content_succeeds 5 "c9" "body" "transformed" ⟨[], [], []⟩ rfl⟩

theorem csGetVersionCount_eq_one (dist : String → String → ℚ)
    (chid vtype : String) (s : CSState) :
    csGetVersionCount dist chid vtype s = 1 := rfl

/-- C3: version storage overwrites instead of appending.  In ContentStore,
get_version_count measures the outer result list (always 1), so every stored
version of a chapter and type gets the same id ending in _2 and the second
store replaces the first, whose content becomes unretrievable.  In
VersionManager, two stores within the same wall-clock second collide on the
timestamp-based id and the second upsert replaces the first. -/
theorem c3_second_store_overwrites_first :
    (let s1 := (csStoreOriginalChapter 1 "T" "u" "orig" "sc" ⟨[], [], []⟩).2
     let r1 := csStoreChapterVersion (fun _ _ => 0) 10 "chapter_1" "contentA" "rewritten" [] s1
     let r2 := csStoreChapterVersion (fun _ _ => 0) 20 "chapter_1" "contentB" "rewritten" [] r1.2
     r1.1 = "chapter_1_vrewritten_2" ∧ r2.1 = r1.1 ∧
       r2.2.versions.length = 1 ∧
       (csGetChapterVersion r1.1 r2.2).map CEntry.doc = some "contentB") ∧
    (let q1 := vmStoreContentVersion 7 "c1" "A" "transformed" [] ⟨[], [], []⟩
     let q2 := vmStoreContentVersion 7 "c1" "B" "transformed" [] q1.2
     q2.1 = q1.1 ∧ q2.2.versionColl.length = 1 ∧
       (vmGetVersion q1.1 q2.2).map CEntry.doc = some "B") := by
  constructor
  · refine ⟨rfl, rfl, ?_, ?_⟩ <;> decide
  · refine ⟨rfl, ?_, ?_⟩ <;> decide

/-- C1: get_latest_version is a nearest-neighbour similarity query, not a
recency lookup.  With two transformed versions of c1, stored at seconds 1
and 2, and an embedding under which the earlier body is nearer to the query
text, the call returns the earlier version even though a strictly later one
exists, contradicting the greatest-createdAt contract. -/
theorem c1_get_latest_version_not_latest :
    let s0 : VMState := ⟨[⟨"c1", "src", [("content_type", MVal.str "source")]⟩], [], []⟩
    let r1 := vmStoreContentVersion 1 "c1" "body one" "transformed" [] s0
    let r2 := vmStoreContentVersion 2 "c1" "body two" "transformed" [] r1.2
    let dist : String → String → ℚ := fun _ d => if d = "body one" then 0 else 1
    r1.1 = "c1_transformed_1" ∧ r2.1 = "c1_transformed_2" ∧ r1.1 ≠ r2.1 ∧
    (vmGetVersion r2.1 r2.2).isSome ∧
    (vmGetLatestVersion dist "c1" "transformed" r2.2).map CEntry.eid = some r1.1 := by
  refine ⟨rfl, rfl, ?_, ?_, ?_⟩ <;> decide

/-- C5 counterexample: with an edited version present, no transformed
version, the original content stored, and a succeeding collaborator, refine
still fails with the no-transformed-version error, against the claim that an
existing edited version suffices for refinement to succeed. -/
theorem c5_counterexample :
    let s : VMState := ⟨[⟨"c1", "orig", [("content_type", MVal.str "source")]⟩],
      [⟨"c1_edited_3", "ed",
        [("content_id", MVal.str "c1"), ("version_type", MVal.str "edited")]⟩], []⟩
    let dist : String → String → ℚ := fun _ _ => 0
    (vmGetLatestVersion dist "c1" "edited" s).isSome ∧
    (vmGetContent "c1" s).isSome ∧
    (refineContent dist (.ok ⟨"rc", "m", "st"⟩) 9 "c1" "fb" s).1.status = .failed ∧
    (refineContent dist (.ok ⟨"rc", "m", "st"⟩) 9 "c1" "fb" s).1.error =
      some "No transformed version found" := by
  refine ⟨?_, ?_, ?_, ?_⟩ <;> decide

/-- C5 (amended): refine_content requires a transformed version and never
consults edited versions: with none it fails with the no-transformed-version
error leaving the state unchanged; every failure leaves the state unchanged;
with a transformed version, the original content, and a succeeding
collaborator it succeeds and stores a refined version.  In PublisherWorkflow,
iterative_refinement requires an edited version, and its absence surfaces as
the get_latest_version index error, never as the structured failure. -/
theorem c5_refine_requires_transformed (dist : String → String → ℚ)
    (tr : Except String TOut) (ed : String → String) (t : Nat)
    (cid chid fb : String) (s : VMState) (cs : CSState) :
    (vmGetLatestVersion dist cid "transformed" s = none →
      refineContent dist tr t cid fb s =
        (⟨.failed, some "No transformed version found", none⟩, s)) ∧
    ((refineContent dist tr t cid fb s).1.status = .failed →
      (refineContent dist tr t cid fb s).2 = s) ∧
    (∀ v c o, vmGetLatestVersion dist cid "transformed" s = some v →
      vmGetContent cid s = some c → tr = .ok o →
      (refineContent dist tr t cid fb s).1.status = .success ∧
      (refineContent dist tr t cid fb s).1.refinedVersionId =
        some (genVersionId cid "refined" t)) ∧
    (iterativeRefinement dist ed t chid fb cs = .error () ↔
      csGetLatestVersion dist chid "edited" cs = .error ()) := by
  refine ⟨?_, ?_, ?_, ?_⟩
  · intro h
    simp [refineContent, h]
  · cases h1 : vmGetLatestVersion dist cid "transformed" s with
    | none => simp [refineContent, h1]
    | some v =>
      cases h2 : vmGetContent cid s with
      | none => simp [refineContent, h1, h2]
      | some c =>
        cases tr with
        | error e => simp [refineContent, h1, h2]
        | ok o => simp [refineContent, h1, h2]
  · intro v c o h1 h2 h3
    subst h3
    constructor
    · simp [refineContent, h1, h2]
    · simp [refineContent, h1, h2, vmStoreContentVersion]
  · cases h : csGetLatestVersion dist chid "edited" cs with
    | error u =>
      cases u
      simp [iterativeRefinement, h]
    | ok latest =>
      cases h2 : csGetChapter chid cs <;> simp [iterativeRefinement, h, h2]

theorem c5_witness :
    vmGetLatestVersion (fun _ _ => 0) "cX" "transformed" ⟨[], [], []⟩ = none ∧
    refineContent (fun _ _ => 0) (.error "boom") 3 "cX" "fb" ⟨[], [], []⟩ =
      (⟨.failed, some "No transformed version found", none⟩, (⟨[], [], []⟩ : VMState)) :=
  ⟨rfl,
   (c5_refine_requires_transformed (fun _ _ => 0) (.error "boom") (fun x => x) 3
      "cX" "ch" "fb" ⟨[], [], []⟩ ⟨[], [], []⟩).1 rfl⟩

/-- C6 counterexample: with the table holding a single negative entry at the
state key, an observe call whose next state key equals the state key does
not produce the claim's pre-state formula value: the freshly inserted
0 entry for the action participates in the next-state maximum, clamping it
to 0. -/
theorem c6_counterexample :
    qread (updateQValue (1/10) (9/10) [("s", [("b", -1)])] "s" "a" 0 (some "s")) "s" "a" ≠
      specObserveValue (1/10) (9/10) [("s", [("b", -1)])] "s" "a" 0 (some "s") := by
  rw [qread_updateQValue_self]
  have h1 : qread [("s", [("b", -1)])] "s" "a" = 0 := rfl
  have h2 : specMaxNext (ensureAction (ensureState [("s", [("b", -1)])] "s") "s" "a")
      (some "s") = 0 := rfl
  have h3 : specMaxNext [("s", [("b", -1)])] (some "s") = -1 := rfl
  unfold specObserveValue
  rw [h1, h2, h3]
  norm_num

/-- C6 (amended): observe replaces the stored value with exactly
oldValue + al * (reward + ga * maxNextValue - oldValue), where oldValue is
the pre-call stored value (0 if absent) and maxNextValue is the maximum
stored value at the next state key read after the (stateKey, action) entry
has been ensured at 0 - so 0 when the next state key is None, absent or
empty, and clamped to at least 0 when it equals stateKey and the action was
absent; no other (state, action) entry changes. -/
theorem c6_observe_td_update (al ga : ℚ) (t : Qtab) (s a : String) (r : ℚ)
    (next : Option String) :
    qread (updateQValue al ga t s a r next) s a =
      qread t s a +
        al * (r + ga * specMaxNext (ensureAction (ensureState t s) s a) next -
          qread t s a) ∧
    ∀ s' a', ¬(s' = s ∧ a' = a) →
      entryOpt (updateQValue al ga t s a r next) s' a' = entryOpt t s' a' :=
  ⟨qread_updateQValue_self al ga t s a r next,
   fun s' a' h => entryOpt_updateQValue_other al ga t s a r next s' a' h⟩

theorem c6_witness :
    qread (updateQValue (1/2) (1/3) [("x", [("b", 2)])] "x" "a" 4 none) "x" "a" =
      qread [("x", [("b", 2)])] "x" "a" +
        (1/2) * (4 + (1/3) * specMaxNext
          (ensureAction (ensureState [("x", [("b", 2)])] "x") "x" "a") none -
          qread [("x", [("b", 2)])] "x" "a") ∧
    entryOpt (updateQValue (1/2) (1/3) [("x", [("b", 2)])] "x" "a" 4 none) "x" "b" =
      entryOpt [("x", [("b", 2)])] "x" "b" :=
  ⟨(c6_observe_td_update (1/2) (1/3) [("x", [("b", 2)])] "x" "a" 4 none).1,
   (c6_observe_td_update (1/2) (1/3) [("x", [("b", 2)])] "x" "a" 4 none).2 "x" "b"
     (by decide)⟩

/-- C7: with exploration rate 0, select_action returns an action of maximal
current value estimate whenever the candidates' estimates are not all equal,
and the result is the same for every random draw (deterministic argmax);
when all estimates are equal it returns the candidate picked by the uniform
random index, so every position is reachable and none is favoured. -/
theorem c7_select_action_greedy (t : Qtab) (s : String) (acts : List String)
    (u : ℚ) (k : Nat) (hne : acts ≠ []) (hu : 0 ≤ u) (hk : k < acts.length) :
    (allEqQ (acts.map (fun b => qread t s b)) = false →
      ∃ a, a ∈ acts ∧
        qread t s a = maxQList (acts.map (fun b => qread t s b)) ∧
        ∀ u' k', 0 ≤ u' → (selectAction 0 u' k' t s acts).1 = some a) ∧
    (allEqQ (acts.map (fun b => qread t s b)) = true →
      (selectAction 0 u k t s acts).1 = acts.get? k) := by
  cases acts with
  | nil => exact absurd rfl hne
  | cons a rest =>
    have hqs : (computeQs t s (a :: rest)).1 =
        (a :: rest).map (fun b => (b, qread t s b)) := computeQs_fst t s (a :: rest)
    have hvals : (computeQs t s (a :: rest)).1.map Prod.snd =
        (a :: rest).map (fun b => qread t s b) := by
      rw [hqs, List.map_map]
      rfl
    constructor
    · intro hall
      obtain ⟨q, hq1, hq2, hq3⟩ := argmaxFirst_cons (a, qread t s a)
        (rest.map (fun b => (b, qread t s b)))
      have hqcons : (computeQs t s (a :: rest)).1 =
          (a, qread t s a) :: rest.map (fun b => (b, qread t s b)) := by
        rw [hqs]
        rfl
      have hmapsnd : (((a, qread t s a) :: rest.map (fun b => (b, qread t s b))).map
          Prod.snd) = (a :: rest).map (fun b => qread t s b) := by
        simp [List.map_map, Function.comp]
      rw [hmapsnd] at hq3
      have hqmem : q.1 ∈ (a :: rest) ∧ q.2 = qread t s q.1 := by
        rcases hq2 with h | h
        · rw [h]
          exact ⟨List.mem_cons_self a rest, rfl⟩
        · obtain ⟨b, hb, hbq⟩ := List.mem_map.mp h
          rw [← hbq]
          exact ⟨List.mem_cons_of_mem _ hb, rfl⟩
      refine ⟨q.1, hqmem.1, ?_, ?_⟩
      · rw [← hqmem.2, hq3]
      · intro u' k' hu'
        rw [selectAction_eps_zero_eq t s a rest u' k' hu']
        simp only [hvals, hall, Bool.false_eq_true, if_false]
        rw [hqcons]
        exact hq1
    · intro hall
      rw [selectAction_eps_zero_eq t s a rest u k hu]
      simp only [hvals, hall, if_true]
      rw [Nat.mod_eq_of_lt hk]

theorem c7_witness :
    (∃ a, a ∈ ["a1", "a2"] ∧
      qread [("s", [("a1", 1), ("a2", 2)])] "s" a =
        maxQList (["a1", "a2"].map
          (fun b => qread [("s", [("a1", 1), ("a2", 2)])] "s" b)) ∧
      ∀ u' k', 0 ≤ u' →
        (selectAction 0 u' k' [("s", [("a1", 1), ("a2", 2)])] "s" ["a1", "a2"]).1 =
          some a) ∧
    (selectAction 0 0 1 [] "s" ["b1", "b2"]).1 = ["b1", "b2"].get? 1 :=
  ⟨(c7_select_action_greedy [("s", [("a1", 1), ("a2", 2)])] "s" ["a1", "a2"] 0 0
      (by decide) (by decide) (by decide)).1 (by decide),
   (c7_select_action_greedy [] "s" ["b1", "b2"] 0 1
      (by decide) (by decide) (by decide)).2 (by decide)⟩

/-- C9: reading a value estimate is not side-effect free.  In exploitation
mode, select_action installs a 0 entry for every candidate action that was
absent from the value table; and a search call leaves an entry in the table
for every item it touched, so the table grows even when only retrieval is
requested. -/
theorem c9_reads_grow_table (eps u : ℚ) (k : Nat) (t : Qtab) (s : String)
    (acts : List String) (al ga : ℚ) (query : String) (items : List SItem)
    (ctx : Option (List (String × String))) (rwf : SItem → String → ℚ)
    (hexp : eps ≤ u) :
    (∀ a ∈ acts, entryOpt t s a = none →
      entryOpt (selectAction eps u k t s acts).2 s a = some 0) ∧
    (∀ it ∈ items,
      (entryOpt (searchRL al ga eps u k t query items ctx rwf).2
        (getStateKey query ctx) it.sid).isSome) := by
  constructor
  · intro a ha hnone
    cases acts with
    | nil => cases ha
    | cons b rest =>
      have e1 : selectAction eps u k t s (b :: rest) =
          if u < eps then ((b :: rest).get? (k % (b :: rest).length), t)
          else
            if allEqQ ((computeQs t s (b :: rest)).1.map Prod.snd) = true then
              ((b :: rest).get? (k % (b :: rest).length), (computeQs t s (b :: rest)).2)
            else (argmaxFirst (computeQs t s (b :: rest)).1, (computeQs t s (b :: rest)).2) :=
        rfl
      have hred : (selectAction eps u k t s (b :: rest)).2 = (computeQs t s (b :: rest)).2 := by
        rw [e1, if_neg (not_lt.mpr hexp)]
        by_cases hc : allEqQ ((computeQs t s (b :: rest)).1.map Prod.snd) = true
        · rw [if_pos hc]
        · rw [if_neg hc]
      rw [hred, entryOpt_computeQs_mem t s _ a ha]
      simp [qread, hnone]
  · intro it hit
    cases items with
    | nil => cases hit
    | cons j rest =>
      have hred : (searchRL al ga eps u k t query (j :: rest) ctx rwf).2 =
          (observeAll al ga
            (selectAction eps u k t (getStateKey query ctx) ((j :: rest).map SItem.sid)).2
            (getStateKey query ctx) query rwf (j :: rest)).2 := rfl
      rw [hred]
      exact isSome_entryOpt_observeAll_mem al ga (getStateKey query ctx) query rwf
        (j :: rest) _ it hit

theorem c9_witness :
    entryOpt (selectAction 0 0 0 [] "sk" ["a1"]).2 "sk" "a1" = some 0 ∧
    (entryOpt (searchRL (1/10) (9/10) 0 0 0 [] "q" [⟨"i1", "c1"⟩] none
        (fun _ _ => 0)).2 (getStateKey "q" none) (SItem.mk "i1" "c1").sid).isSome :=
  ⟨(c9_reads_grow_table 0 0 0 [] "sk" ["a1"] (1/10) (9/10) "q" [⟨"i1", "c1"⟩] none
      (fun _ _ => 0) (by decide)).1 "a1" (by decide) rfl,
   (c9_reads_grow_table 0 0 0 [] "sk" ["a1"] (1/10) (9/10) "q" [⟨"i1", "c1"⟩] none
      (fun _ _ => 0) (by decide)).2 ⟨"i1", "c1"⟩ (by decide)⟩

/-- C4: in a run over three harvested items where item 2's transform
collaborator yields an error result while items 1 and 3 succeed, the run
completes with status success, reports exactly three per-item results, marks
item 2 failed with the collaborator's error message, and marks items 1 and 3
success - one item's failure never aborts the others. -/
theorem c4_item_failure_never_aborts_run (sha : String → String)
    (page : String → ContentData) (pid : String) (t : Nat) (u : String)
    (i1 i2 i3 : ContentData) (tf : Nat → Except String TOut)
    (ef : Nat → Except String EOut) (s : VMState) (emsg : String) (o1 o3 : TOut)
    (hharv : harvestSeq page (some u) 10 = [i1, i2, i3])
    (h1 : tf 0 = .ok o1) (h2 : tf 1 = .error emsg) (h3 : tf 2 = .ok o3) :
    (runPublicationProcess sha page tf ef pid t u s).1.status = .success ∧
    (runPublicationProcess sha page tf ef pid t u s).1.results.length = 3 ∧
    (runPublicationProcess sha page tf ef pid t u s).1.results.map ItemResult.status =
      [.success, .failed, .success] ∧
    ((runPublicationProcess sha page tf ef pid t u s).1.results.get? 1).map
      ItemResult.error = some (some emsg) := by
  have hrun : (runPublicationProcess sha page tf ef pid t u s).1 =
      ⟨.success, none, 3, (runItemsAux sha tf ef t 0 [i1, i2, i3] s).1⟩ := by
    unfold runPublicationProcess
    rw [hharv]
    rfl
  rw [hrun, runItemsAux_zero_three, h1, h2, h3]
  refine ⟨rfl, rfl, ?_, ?_⟩
  · simp only [List.map_cons, List.map_nil, processContentItem_ok_status,
      processContentItem_err_status]
  · simp only [List.get?_cons_succ, List.get?_cons_zero, Option.map_some',
      processContentItem_err_error]

theorem c4_witness :
    harvestSeq c4page (some "u1") 10 =
      [⟨"u1", "T1", "c1", "s1", some "u2", some 1⟩,
       ⟨"u2", "T2", "c2", "s2", some "u3", some 2⟩,
       ⟨"u3", "T3", "c3", "s3", none, some 3⟩] ∧
    ((runPublicationProcess (fun c => c) c4page
        (fun i => if i = 1 then .error "boom" else .ok ⟨"tc", "m", "st"⟩)
        (fun _ => .error "ee") "p" 0 "u1" ⟨[], [], []⟩).1.status = .success ∧
     (runPublicationProcess (fun c => c) c4page
        (fun i => if i = 1 then .error "boom" else .ok ⟨"tc", "m", "st"⟩)
        (fun _ => .error "ee") "p" 0 "u1" ⟨[], [], []⟩).1.results.length = 3 ∧
     (runPublicationProcess (fun c => c) c4page
        (fun i => if i = 1 then .error "boom" else .ok ⟨"tc", "m", "st"⟩)
        (fun _ => .error "ee") "p" 0 "u1" ⟨[], [], []⟩).1.results.map ItemResult.status =
       [.success, .failed, .success] ∧
     ((runPublicationProcess (fun c => c) c4page
        (fun i => if i = 1 then .error "boom" else .ok ⟨"tc", "m", "st"⟩)
        (fun _ => .error "ee") "p" 0 "u1" ⟨[], [], []⟩).1.results.get? 1).map
       ItemResult.error = some (some "boom")) :=
  ⟨by decide,
   c4_item_failure_never_aborts_run (fun c => c) c4page "p" 0 "u1"
     ⟨"u1", "T1", "c1", "s1", some "u2", some 1⟩
     ⟨"u2", "T2", "c2", "s2", some "u3", some 2⟩
     ⟨"u3", "T3", "c3", "s3", none, some 3⟩
     (fun i => if i = 1 then .error "boom" else .ok ⟨"tc", "m", "st"⟩)
     (fun _ => .error "ee") ⟨[], [], []⟩ "boom" ⟨"tc", "m", "st"⟩ ⟨"tc", "m", "st"⟩
     (by decide) rfl rfl rfl⟩
